import Mathlib

/-!
Verification of the sleep-analysis pipeline (oura_api.py, ultrahuman_api.py,
main_analysis.py) against its natural-language specification.

The Python source is embedded shallowly:
  * Machine integers, epoch timestamps and second counts become `Int`;
    Python's floor division `//` becomes `Int.fdiv` (both round toward
    negative infinity).
  * The vendor records become structures whose fields keep the JSON names
    used by the source (`end` is written `«end»`).
  * Python's insertion-ordered dicts become association lists with
    `alookup` / `aupdate`; `sorted` (a stable sort) becomes the stable
    insertion sort `sortBy`.
  * A Python code path that raises becomes `Option`/`Except`: `none` /
    `.error` means the call raised and produced no data.
  * Calendar dates are abstracted as values: Oura keys days by the `day`
    string of the record; Ultrahuman derives the day from `bedtime_end`
    via `datetime.fromtimestamp(..).date()`, embedded as the epoch-day
    index `fdiv bedtime_end 86400` (timezone fixed to UTC).
-/

/-! ## Association lists standing for Python dicts (insertion ordered) -/

/-- Value stored under key `d`, scanning in insertion order. -/
def alookup {K V : Type} [DecidableEq K] (d : K) : List (K × V) → Option V
  | [] => none
  | kv :: t => if kv.1 = d then some kv.2 else alookup d t

/-- Replace the value stored under key `d` (no-op when the key is absent),
keeping the key's insertion position, as Python dict assignment does. -/
def aupdate {K V : Type} [DecidableEq K] (d : K) (v : V) : List (K × V) → List (K × V)
  | [] => []
  | kv :: t => if kv.1 = d then (d, v) :: t else kv :: aupdate d v t

/-! ## Stable sort (Python `sorted`) -/

/-- Insert `x` after every element strictly smaller, before the first
element not smaller: stable insertion, matching Python's stable sort. -/
def sortInsert {α : Type} (lt : α → α → Bool) (x : α) : List α → List α
  | [] => [x]
  | y :: t => if lt y x then y :: sortInsert lt x t else x :: y :: t

/-- Stable sort by the strict comparison `lt`. -/
def sortBy {α : Type} (lt : α → α → Bool) : List α → List α
  | [] => []
  | x :: t => sortInsert lt x (sortBy lt t)

/-! ## The day reconciler, shared shape of both vendors' dedup loops

Both `get_oura_sleep_data` (oura_api.py lines 41-48) and
`process_ultrahuman_sleep_data` (ultrahuman_api.py lines 52-66) run the same
loop: walk the raw records in input order, skip excluded days, and for each
day keep the stored image of the record whose comparison key is largest,
replacing the stored one only on a strictly greater key. -/

/-- One step of the dedup loop. `dayOf` extracts the calendar-day key,
`keyOf` the comparison key of an incoming record, `store` the value kept in
the dict, and `keyOfStored` reads the comparison key back off a stored
value. -/
def reconStep {α V K : Type} [DecidableEq K] (dayOf : α → K) (keyOf : α → Int)
    (store : α → V) (keyOfStored : V → Int) (excl : List K)
    (acc : List (K × V)) (s : α) : List (K × V) :=
  if dayOf s ∈ excl then acc
  else
    match alookup (dayOf s) acc with
    | none => acc ++ [(dayOf s, store s)]
    | some prev => if keyOf s > keyOfStored prev then aupdate (dayOf s) (store s) acc else acc

/-- The whole dedup loop over the raw records. -/
def reconcileBy {α V K : Type} [DecidableEq K] (dayOf : α → K) (keyOf : α → Int)
    (store : α → V) (keyOfStored : V → Int) (excl : List K) (data : List α) :
    List (K × V) :=
  data.foldl (reconStep dayOf keyOf store keyOfStored excl) []

/-! ## Oura (phase-code vendor), src/oura_api.py -/

/-- Clock time (hour, minute) of an ISO timestamp, the only parts
`process_sleep_data.time_to_minutes` reads. -/
structure ClockTime where
  hour : Nat
  minute : Nat
deriving DecidableEq

/-- Embedding of `time_to_minutes` inside `process_sleep_data`
(oura_api.py lines 57-62): naive minutes, plus 24h when the hour is before
noon, minus 24h unconditionally. -/
def time_to_minutes (t : ClockTime) : Int :=
  let minutes : Int := (t.hour : Int) * 60 + (t.minute : Int)
  let minutes := if t.hour < 12 then minutes + 24 * 60 else minutes
  minutes - 24 * 60

/-- A raw Oura session as consumed by the source: the fields it reads.
`rem_sleep_duration` is `Option` because line 45 of oura_api.py explicitly
tests `'rem_sleep_duration' in session`; every other read field is assumed
present. Durations are seconds. -/
structure OuraRawSession where
  day : String
  bedtime_start : ClockTime
  bedtime_end : ClockTime
  sleep_phase_5_min : List Nat
  deep_sleep_duration : Int
  light_sleep_duration : Int
  rem_sleep_duration : Option Int
  awake_time : Int
  total_sleep_duration : Int
deriving DecidableEq

/-- The reconciler's computed total (oura_api.py line 45). Python parses the
line as `(deep + light + rem) if 'rem_sleep_duration' in session else 0`. -/
def ouraComputedTotal (s : OuraRawSession) : Int :=
  match s.rem_sleep_duration with
  | some rem => s.deep_sleep_duration + s.light_sleep_duration + rem
  | none => 0

/-- What the Oura dedup loop stores: the session with its
`total_sleep_duration` field overwritten by the computed total
(oura_api.py lines 47-48). -/
def ouraStore (s : OuraRawSession) : OuraRawSession :=
  { s with total_sleep_duration := ouraComputedTotal s }

/-- The grouping-and-filtering loop of `get_oura_sleep_data`
(oura_api.py lines 41-48). -/
def ouraDedup (excl : List String) (data : List OuraRawSession) :
    List (String × OuraRawSession) :=
  reconcileBy (fun s => s.day) ouraComputedTotal ouraStore
    (fun s => s.total_sleep_duration) excl data

/-- The parsed body of an Oura HTTP response: status code plus the `data`
list of the JSON payload. -/
structure OuraResponse where
  status : Nat
  data : List OuraRawSession

/-- Embedding of `get_oura_sleep_data` (oura_api.py lines 36-54): on status
200 the deduplicated records sorted by day, otherwise an exception. -/
def get_oura_sleep_data (resp : OuraResponse) (dates_to_exclude : List String) :
    Except String (List OuraRawSession) :=
  if resp.status = 200 then
    Except.ok (sortBy (fun a b => decide (a.day < b.day))
      ((ouraDedup dates_to_exclude resp.data).map (fun kv => kv.2)))
  else
    Except.error "Failed to fetch data"

/-- One processed Oura entry (the dict built at oura_api.py lines 94-106).
All values are minutes. -/
structure OuraProcessed where
  day : String
  bedtime_start : Int
  bedtime_end : Int
  sleeptime_start : Int
  sleeptime_end : Int
  deep_sleep_duration : Int
  awake_time_filtered_phases : Int
  awake_time_filtered_subtraction : Int
  light_sleep_duration : Int
  rem_sleep_duration : Int
  total_sleep_duration : Int
deriving DecidableEq

/-- Index of the last phase that is not the awake code 4 (oura_api.py
line 84): first hit scanning the reversed list, mapped back. -/
def lastNonAwakeIdx (phases : List Nat) : Option Nat :=
  (phases.reverse.findIdx? (fun p => p != 4)).map (fun i => phases.length - 1 - i)

/-- `start_index` of oura_api.py line 80: first phase that is not 4. -/
def ouraStartIdx (s : OuraRawSession) : Option Nat :=
  s.sleep_phase_5_min.findIdx? (fun p => p != 4)

/-- `end_index` of oura_api.py line 84. -/
def ouraEndIdx (s : OuraRawSession) : Option Nat :=
  lastNonAwakeIdx s.sleep_phase_5_min

/-- `sleeptime_start` of oura_api.py line 81. -/
def ouraSleepStart (s : OuraRawSession) : Int :=
  time_to_minutes s.bedtime_start +
    (match ouraStartIdx s with | some i => (i : Int) * 5 | none => 0)

/-- `sleeptime_end` of oura_api.py line 85. -/
def ouraSleepEnd (s : OuraRawSession) : Int :=
  time_to_minutes s.bedtime_start +
    (match ouraEndIdx s with
      | some i => ((i : Int) + 1) * 5
      | none => (s.sleep_phase_5_min.length : Int) * 5)

/-- Processing of a single record inside `process_sleep_data`
(oura_api.py lines 72-106). `none` means the Python body raised:
`sleep_phases[start_index:end_index+1]` on line 88 evaluates
`end_index + 1` and therefore raises `TypeError` whenever the phase
sequence has no non-awake entry (both indices `None`), and line 104 raises
`KeyError` when `rem_sleep_duration` is absent. -/
def processOuraRecord (s : OuraRawSession) : Option OuraProcessed :=
  match ouraStartIdx s, ouraEndIdx s, s.rem_sleep_duration with
  | some si, some ei, some rem =>
    let bedtime_start := time_to_minutes s.bedtime_start
    let bedtime_end := time_to_minutes s.bedtime_end
    some
      { day := s.day
        bedtime_start := bedtime_start
        bedtime_end := bedtime_end
        sleeptime_start := ouraSleepStart s
        sleeptime_end := ouraSleepEnd s
        deep_sleep_duration := Int.fdiv s.deep_sleep_duration 60
        awake_time_filtered_phases :=
          (((s.sleep_phase_5_min.drop si).take (ei + 1 - si)).countP (fun p => p == 4) : Int) * 5
        awake_time_filtered_subtraction :=
          max 0 (Int.fdiv s.awake_time 60 -
            ((ouraSleepStart s - bedtime_start) + (bedtime_end - ouraSleepEnd s)))
        light_sleep_duration := Int.fdiv s.light_sleep_duration 60
        rem_sleep_duration := Int.fdiv rem 60
        total_sleep_duration := Int.fdiv s.total_sleep_duration 60 }
  | _, _, _ => none

/-- Embedding of `process_sleep_data` (oura_api.py lines 56-109): records of
excluded days are skipped; any raise inside the loop aborts the whole call
(`none`). -/
def process_sleep_data (dates_to_exclude : List String) :
    List OuraRawSession → Option (List OuraProcessed)
  | [] => some []
  | s :: t =>
    if s.day ∈ dates_to_exclude then process_sleep_data dates_to_exclude t
    else
      match processOuraRecord s with
      | none => none
      | some e =>
        match process_sleep_data dates_to_exclude t with
        | none => none
        | some rest => some (e :: rest)

/-! ## Ultrahuman (segment-list vendor), src/ultrahuman_api.py -/

/-- One sleep-graph segment: a type tag with absolute start/end epoch
seconds. -/
structure UHSegment where
  type : String
  start : Int
  «end» : Int
deriving DecidableEq

/-- One per-stage summary entry (`sleep_stages`): type tag and duration in
seconds. -/
structure UHStage where
  type : String
  stage_time : Int
deriving DecidableEq

/-- A raw Ultrahuman sleep record (the `object` the source reads). -/
structure UHRawRecord where
  bedtime_start : Int
  bedtime_end : Int
  sleep_stages : List UHStage
  sleep_graph : List UHSegment
deriving DecidableEq

/-- Day key of a record: the calendar date of `bedtime_end`
(ultrahuman_api.py line 55), as an epoch-day index. -/
def uhDay (r : UHRawRecord) : Int :=
  Int.fdiv r.bedtime_end 86400

/-- The reference point: midnight of the day key (ultrahuman_api.py
line 58). -/
def uhRef (r : UHRawRecord) : Int :=
  86400 * uhDay r

/-- Embedding of `time_to_minutes` inside `process_ultrahuman_sleep_data`
(lines 48-50): `timedelta` normalizes to floor days plus a seconds part in
[0, 86400). -/
def uh_time_to_minutes (t ref : Int) : Int :=
  Int.fdiv (t - ref) 86400 * (24 * 60) + Int.fdiv (Int.emod (t - ref) 86400) 60

/-- Bedtime span used by the Ultrahuman dedup loop (line 61): the loop
compares `bedtime_end - bedtime_start`, not any sleep-stage total. -/
def uhSpan (r : UHRawRecord) : Int :=
  r.bedtime_end - r.bedtime_start

/-- The per-day keep-the-longest loop of `process_ultrahuman_sleep_data`
(lines 52-66): keyed by day, compared by bedtime span, storing the raw
record. -/
def uhDedup (excl : List Int) (data : List UHRawRecord) : List (Int × UHRawRecord) :=
  reconcileBy uhDay uhSpan (fun r => r) uhSpan excl data

/-- Stage duration matched by type tag, defaulting to zero when the tag is
missing (lines 79-82). -/
def stageTime (stages : List UHStage) (tag : String) : Int :=
  match stages.find? (fun st => st.type == tag) with
  | some st => st.stage_time
  | none => 0

/-- Sum of seconds of awake-tagged sleep-graph segments whose start lies in
the half-open window [ss, se), accumulated left to right like the Python
generator on lines 94-98. -/
def uhAwakeSum (graph : List UHSegment) (ss se : Int) : Int :=
  graph.foldl
    (fun acc seg =>
      if seg.type == "awake" && decide (ss ≤ seg.start) && decide (seg.start < se) then
        acc + (seg.«end» - seg.start)
      else acc) 0

/-- Total sleep seconds of the per-stage summary: every non-awake stage
entry (line 114). -/
def uhTotalSleepSeconds (r : UHRawRecord) : Int :=
  ((r.sleep_stages.filter (fun st => st.type != "awake")).map
    (fun st => st.stage_time)).sum

/-- One processed Ultrahuman entry (the dict built at lines 104-115). -/
structure UHProcessed where
  day : Int
  bedtime_start : Int
  bedtime_end : Int
  sleeptime_start : Int
  sleeptime_end : Int
  deep_sleep_duration : Int
  awake_time_filtered : Int
  light_sleep_duration : Int
  rem_sleep_duration : Int
  total_sleep_duration : Int
deriving DecidableEq

/-- The non-awake sleep-graph segments (ultrahuman_api.py line 85). -/
def nonAwakeSegs (r : UHRawRecord) : List UHSegment :=
  r.sleep_graph.filter (fun seg => seg.type != "awake")

/-- Per-day processing of `process_ultrahuman_sleep_data` (lines 68-116).
The stored reference date always derives from the stored record's
`bedtime_end`, so it is recomputed here from `r`. -/
def processUHRecord (day : Int) (r : UHRawRecord) : UHProcessed :=
  let ref := uhRef r
  let bedtime_start_minutes := uh_time_to_minutes r.bedtime_start ref
  let bedtime_end_minutes := uh_time_to_minutes r.bedtime_end ref
  match ((nonAwakeSegs r).map (fun seg => seg.start)).min?,
        ((nonAwakeSegs r).map (fun seg => seg.«end»)).max? with
  | some ss, some se =>
    { day := day
      bedtime_start := bedtime_start_minutes
      bedtime_end := bedtime_end_minutes
      sleeptime_start := uh_time_to_minutes ss ref
      sleeptime_end := uh_time_to_minutes se ref
      deep_sleep_duration := Int.fdiv (stageTime r.sleep_stages "deep_sleep") 60
      awake_time_filtered := Int.fdiv (uhAwakeSum r.sleep_graph ss se) 60
      light_sleep_duration := Int.fdiv (stageTime r.sleep_stages "light_sleep") 60
      rem_sleep_duration := Int.fdiv (stageTime r.sleep_stages "rem_sleep") 60
      total_sleep_duration := Int.fdiv (uhTotalSleepSeconds r) 60 }
  | _, _ =>
    { day := day
      bedtime_start := bedtime_start_minutes
      bedtime_end := bedtime_end_minutes
      sleeptime_start := bedtime_start_minutes
      sleeptime_end := bedtime_end_minutes
      deep_sleep_duration := Int.fdiv (stageTime r.sleep_stages "deep_sleep") 60
      awake_time_filtered := 0
      light_sleep_duration := Int.fdiv (stageTime r.sleep_stages "light_sleep") 60
      rem_sleep_duration := Int.fdiv (stageTime r.sleep_stages "rem_sleep") 60
      total_sleep_duration := Int.fdiv (uhTotalSleepSeconds r) 60 }

/-- Embedding of `process_ultrahuman_sleep_data` (lines 42-118): dedup by
day, process each kept record, and return the entries sorted by day. -/
def process_ultrahuman_sleep_data (sleep_data_list : List UHRawRecord)
    (dates_to_exclude : List Int) : List UHProcessed :=
  sortBy (fun a b => decide (a.day < b.day))
    ((uhDedup dates_to_exclude sleep_data_list).map (fun kv => processUHRecord kv.1 kv.2))

/-- The parsed body of one day's Ultrahuman HTTP response. -/
structure UHResponse where
  status : Nat
  payload : UHRawRecord

/-- Embedding of `get_ultrahuman_sleep_data` (ultrahuman_api.py lines 7-40):
one blocking request per non-excluded day of the range; a non-200 day is
logged and skipped, never raised. `days` is the closed date range walked by
the while loop, `resp` the response each request would get. -/
def get_ultrahuman_sleep_data (days : List Int) (resp : Int → UHResponse)
    (dates_to_exclude : List Int) : List UHRawRecord :=
  days.foldl
    (fun acc d =>
      if d ∈ dates_to_exclude then acc
      else if (resp d).status = 200 then acc ++ [(resp d).payload]
      else acc) []

/-! ## Merger, src/main_analysis.py `create_dataframes` (lines 21-38)

The dataframes are embedded as row lists whose `day` keys are already the
common datetime type `pd.to_datetime` produces, abstracted as `Int`. The
first merge joins anecdotal `Date` against the Oura `day` column; the
second joins the resulting `day` column (null when Oura had no match)
against the Ultrahuman `day` column; then every null numeric field is
replaced by zero. -/

/-- One anecdotal row (Date plus the self-reported minute fields read by
`calculate_errors`). -/
structure AnecRow where
  Date : Int
  jared_sleep_start : Int
  jared_total_sleep : Int
  jared_sleep_end : Int
deriving DecidableEq

/-- The numeric vendor columns carried through the merge. -/
structure VendorCols where
  bedtime_start : Int
  bedtime_end : Int
  sleeptime_start : Int
  sleeptime_end : Int
  deep_sleep_duration : Int
  light_sleep_duration : Int
  rem_sleep_duration : Int
  total_sleep_duration : Int
deriving DecidableEq

/-- One row of a vendor dataframe after `pd.to_datetime` on `day`. -/
structure VendorDFRow where
  day : Int
  cols : VendorCols
deriving DecidableEq

/-- One merged row: anecdotal fields, the join-key `day` column (none =
NaT), and each vendor's columns (none = that vendor's cells are null). -/
structure MergedRow where
  anec : AnecRow
  day : Option Int
  oura : Option VendorCols
  ultrahuman : Option VendorCols
deriving DecidableEq

/-- Left merge of the anecdotal table with the Oura table
(`left_on='Date', right_on='day', how='left'`): one row per match, or one
null-filled row when there is none. -/
def mergeLeftOura (anec : List AnecRow) (oura : List VendorDFRow) :
    List (AnecRow × Option Int × Option VendorCols) :=
  anec.flatMap (fun a =>
    match oura.filter (fun o => o.day == a.Date) with
    | [] => [(a, none, none)]
    | ms => ms.map (fun o => (a, some o.day, some o.cols)))

/-- Left merge of the first result with the Ultrahuman table
(`on='day', how='left'`): the join key is the `day` column of the first
merge, null (NaT) where Oura had no record, and a null key matches no
Ultrahuman row. -/
def mergeLeftUH (rows : List (AnecRow × Option Int × Option VendorCols))
    (uh : List VendorDFRow) : List MergedRow :=
  rows.flatMap (fun row =>
    match uh.filter (fun u => row.2.1 == some u.day) with
    | [] => [{ anec := row.1, day := row.2.1, oura := row.2.2, ultrahuman := none }]
    | ms => ms.map (fun u =>
        { anec := row.1, day := row.2.1, oura := row.2.2, ultrahuman := some u.cols }))

/-- All-zero vendor columns. -/
def zeroCols : VendorCols := ⟨0, 0, 0, 0, 0, 0, 0, 0⟩

/-- The `fillna(0)` pass over the numeric columns (lines 33-36): every null
vendor cell becomes 0. (The `day` column is a datetime column, not numeric,
so it is left untouched.) -/
def fillZero (rows : List MergedRow) : List MergedRow :=
  rows.map (fun r =>
    { r with oura := some (r.oura.getD zeroCols),
             ultrahuman := some (r.ultrahuman.getD zeroCols) })

/-- Embedding of `create_dataframes` (main_analysis.py lines 21-38). -/
def create_dataframes (oura_data : List VendorDFRow) (ultrahuman_data : List VendorDFRow)
    (anecdotal_data : List AnecRow) : List MergedRow :=
  fillZero (mergeLeftUH (mergeLeftOura anecdotal_data oura_data) ultrahuman_data)

/-! ## Specification-side vocabulary used by the claim statements -/

/-- The record `s` is the first record of `data` for day `d` whose key is
largest: everything before it for the same day is strictly smaller,
everything after it no larger. -/
def KeptFirstMax {α K : Type} (dayOf : α → K) (keyOf : α → Int) (d : K)
    (data : List α) (s : α) : Prop :=
  ∃ l1 l2, data = l1 ++ s :: l2 ∧ dayOf s = d ∧
    (∀ s' ∈ l1, dayOf s' = d → keyOf s' < keyOf s) ∧
    (∀ s' ∈ l2, dayOf s' = d → keyOf s' ≤ keyOf s)

/-- The Oura dedup kept, for day `d`, the stored image of the first input
record with largest computed stage-summary total. -/
def OuraKeepsFirstMaxTotal (data : List OuraRawSession) (d : String)
    (v : OuraRawSession) : Prop :=
  ∃ s, KeptFirstMax (fun s => s.day) ouraComputedTotal d data s ∧ v = ouraStore s

/-- The Ultrahuman dedup kept, for day `d`, the first input record with
largest bedtime span. -/
def UHKeepsFirstMaxSpan (data : List UHRawRecord) (d : Int)
    (v : UHRawRecord) : Prop :=
  ∃ s, KeptFirstMax uhDay uhSpan d data s ∧ v = s

/-- No entry for day `d` ever appears in the Oura normalizer output. -/
def OuraDayExcluded (data : List OuraRawSession) (excl : List String) (d : String) : Prop :=
  ∀ out, process_sleep_data excl data = some out → ∀ e ∈ out, e.day ≠ d

/-- No entry for day `d` ever appears in the Ultrahuman normalizer output. -/
def UHDayExcluded (data : List UHRawRecord) (excl : List Int) (d : Int) : Prop :=
  ∀ e ∈ process_ultrahuman_sleep_data data excl, e.day ≠ d

/-! ## Concrete records used by witnesses and counterexamples

Seconds and epoch timestamps are literal; `ouraProcC10` is the processed
image of `ouraRecC10`, checked by `decide` where used. -/

def ouraRecEmptyPhases : OuraRawSession :=
  ⟨"2024-06-24", ⟨23, 0⟩, ⟨7, 0⟩, [], 3600, 7200, some 1800, 600, 12600⟩

def ouraRecAllAwake : OuraRawSession :=
  ⟨"2024-06-25", ⟨23, 0⟩, ⟨7, 0⟩, [4, 4, 4], 3600, 7200, some 1800, 600, 12600⟩

def ouraRecC10 : OuraRawSession :=
  ⟨"2024-06-26", ⟨23, 0⟩, ⟨7, 0⟩, [4, 4, 0, 0, 4], 3600, 7200, some 1800, 300, 12600⟩

def ouraProcC10 : OuraProcessed :=
  ⟨"2024-06-26", -60, 420, -50, -40, 60, 0, 0, 120, 30, 210⟩

def ouraA : OuraRawSession :=
  ⟨"2024-07-01", ⟨23, 0⟩, ⟨7, 0⟩, [0], 12000, 0, some 0, 0, 0⟩

def ouraB : OuraRawSession :=
  ⟨"2024-07-01", ⟨23, 30⟩, ⟨7, 0⟩, [0], 21000, 0, some 0, 0, 0⟩

def ouraRecExcluded : OuraRawSession :=
  ⟨"2024-06-21", ⟨23, 0⟩, ⟨7, 0⟩, [0], 0, 0, some 0, 0, 0⟩

def uhA : UHRawRecord :=
  ⟨0, 30000, [⟨"deep_sleep", 12000⟩], [⟨"deep_sleep", 0, 30000⟩]⟩

def uhB : UHRawRecord :=
  ⟨0, 21000, [⟨"deep_sleep", 21000⟩], [⟨"deep_sleep", 0, 21000⟩]⟩

def uhRecC2 : UHRawRecord :=
  ⟨0, 270, [⟨"deep_sleep", 90⟩, ⟨"light_sleep", 90⟩, ⟨"rem_sleep", 90⟩, ⟨"awake", 0⟩],
    [⟨"deep_sleep", 0, 270⟩]⟩

def uhRecC6 : UHRawRecord :=
  ⟨0, 600, [⟨"deep_sleep", 540⟩],
    [⟨"asleep", 0, 300⟩, ⟨"awake", 300, 360⟩, ⟨"asleep", 360, 600⟩]⟩

def uhRecExcluded : UHRawRecord :=
  ⟨19900 * 86400, 19900 * 86400 + 28800, [], []⟩

def anecC7 : List AnecRow := [⟨10, 100, 200, 300⟩, ⟨11, 110, 210, 310⟩]

def vcolsC7 : VendorCols := ⟨1, 2, 3, 4, 5, 6, 7, 8⟩

def ouraDF7 : List VendorDFRow := [⟨10, vcolsC7⟩]

def uhDF7 : List VendorDFRow := [⟨10, vcolsC7⟩]

def rowC7 : MergedRow := ⟨⟨11, 110, 210, 310⟩, none, some zeroCols, some zeroCols⟩

instance : Std.Antisymm (fun (a b : Int) => a ≤ b) :=
  ⟨fun h1 h2 => le_antisymm h1 h2⟩

/-! ## Helper lemmas -/

theorem alookup_append_single {K V : Type} [DecidableEq K] (d k : K) (v : V)
    (l : List (K × V)) :
    alookup d (l ++ [(k, v)]) =
      match alookup d l with
      | some w => some w
      | none => if k = d then some v else none := by
  induction l with
  | nil => simp [alookup]
  | cons kv t ih =>
    by_cases h : kv.1 = d <;> simp [alookup, h, ih]

theorem alookup_aupdate_ne {K V : Type} [DecidableEq K] {d k : K} (v : V)
    (l : List (K × V)) (h : k ≠ d) :
    alookup d (aupdate k v l) = alookup d l := by
  induction l with
  | nil => simp [aupdate]
  | cons kv t ih =>
    by_cases hk : kv.1 = k
    · simp [aupdate, hk, alookup, h, Ne.symm h]
    · simp [aupdate, hk, alookup, ih]

theorem alookup_aupdate_self {K V : Type} [DecidableEq K] {k : K} (v : V)
    {w : V} {l : List (K × V)} (h : alookup k l = some w) :
    alookup k (aupdate k v l) = some v := by
  induction l with
  | nil => simp [alookup] at h
  | cons kv t ih =>
    by_cases hk : kv.1 = k
    · simp [aupdate, hk, alookup]
    · simp only [alookup, if_neg hk] at h
      simp [aupdate, hk, alookup, ih h]

theorem mem_aupdate {K V : Type} [DecidableEq K] {k : K} {v : V}
    {kv : K × V} {l : List (K × V)} (h : kv ∈ aupdate k v l) :
    kv = (k, v) ∨ kv ∈ l := by
  induction l with
  | nil => simp [aupdate] at h
  | cons kw t ih =>
    by_cases hk : kw.1 = k
    · simp only [aupdate, if_pos hk, List.mem_cons] at h
      rcases h with h | h
      · exact Or.inl h
      · exact Or.inr (List.mem_cons_of_mem _ h)
    · simp only [aupdate, if_neg hk, List.mem_cons] at h
      rcases h with h | h
      · exact Or.inr (h ▸ List.mem_cons_self _ _)
      · rcases ih h with h | h
        · exact Or.inl h
        · exact Or.inr (List.mem_cons_of_mem _ h)

theorem reconcileBy_append_single {α V K : Type} [DecidableEq K]
    (dayOf : α → K) (keyOf : α → Int) (store : α → V) (keyOfStored : V → Int)
    (excl : List K) (l : List α) (x : α) :
    reconcileBy dayOf keyOf store keyOfStored excl (l ++ [x]) =
      reconStep dayOf keyOf store keyOfStored excl
        (reconcileBy dayOf keyOf store keyOfStored excl l) x := by
  simp [reconcileBy, List.foldl_append]

theorem KeptFirstMax_extend {α K : Type} {dayOf : α → K} {keyOf : α → Int}
    {d : K} {l : List α} {s x : α}
    (h : KeptFirstMax dayOf keyOf d l s)
    (hx : dayOf x = d → keyOf x ≤ keyOf s) :
    KeptFirstMax dayOf keyOf d (l ++ [x]) s := by
  obtain ⟨l1, l2, rfl, hday, h1, h2⟩ := h
  refine ⟨l1, l2 ++ [x], by simp, hday, h1, ?_⟩
  intro s' hs' hd'
  rcases List.mem_append.mp hs' with h | h
  · exact h2 s' h hd'
  · simp only [List.mem_singleton] at h
    subst h
    exact hx hd'

theorem reconStep_excl {α V K : Type} [DecidableEq K]
    {dayOf : α → K} {keyOf : α → Int} {store : α → V} {keyOfStored : V → Int}
    {excl : List K} {st : List (K × V)} {x : α} (hx : dayOf x ∈ excl) :
    reconStep dayOf keyOf store keyOfStored excl st x = st := by
  rw [reconStep, if_pos hx]

theorem reconStep_new {α V K : Type} [DecidableEq K]
    {dayOf : α → K} {keyOf : α → Int} {store : α → V} {keyOfStored : V → Int}
    {excl : List K} {st : List (K × V)} {x : α} (hx : dayOf x ∉ excl)
    (hlk : alookup (dayOf x) st = none) :
    reconStep dayOf keyOf store keyOfStored excl st x = st ++ [(dayOf x, store x)] := by
  rw [reconStep, if_neg hx, hlk]

theorem reconStep_gt {α V K : Type} [DecidableEq K]
    {dayOf : α → K} {keyOf : α → Int} {store : α → V} {keyOfStored : V → Int}
    {excl : List K} {st : List (K × V)} {x : α} {prev : V} (hx : dayOf x ∉ excl)
    (hlk : alookup (dayOf x) st = some prev) (hgt : keyOf x > keyOfStored prev) :
    reconStep dayOf keyOf store keyOfStored excl st x = aupdate (dayOf x) (store x) st := by
  rw [reconStep, if_neg hx, hlk]
  exact if_pos hgt

theorem reconStep_le {α V K : Type} [DecidableEq K]
    {dayOf : α → K} {keyOf : α → Int} {store : α → V} {keyOfStored : V → Int}
    {excl : List K} {st : List (K × V)} {x : α} {prev : V} (hx : dayOf x ∉ excl)
    (hlk : alookup (dayOf x) st = some prev) (hgt : ¬ keyOf x > keyOfStored prev) :
    reconStep dayOf keyOf store keyOfStored excl st x = st := by
  rw [reconStep, if_neg hx, hlk]
  exact if_neg hgt

theorem reconcileBy_spec {α V K : Type} [DecidableEq K]
    (dayOf : α → K) (keyOf : α → Int) (store : α → V) (keyOfStored : V → Int)
    (hcoh : ∀ s, keyOfStored (store s) = keyOf s)
    (excl : List K) (data : List α) (d : K) (hd : d ∉ excl) :
    (alookup d (reconcileBy dayOf keyOf store keyOfStored excl data) = none →
       ∀ s ∈ data, dayOf s ≠ d) ∧
    (∀ v, alookup d (reconcileBy dayOf keyOf store keyOfStored excl data) = some v →
       ∃ s, KeptFirstMax dayOf keyOf d data s ∧ v = store s) := by
  induction data using List.reverseRecOn with
  | nil =>
    constructor
    · intro _ s hs
      simp at hs
    · intro v hv
      simp [reconcileBy, alookup] at hv
  | append_singleton l x ih =>
    rw [reconcileBy_append_single]
    by_cases hx : dayOf x ∈ excl
    · rw [reconStep_excl hx]
      have hxd : dayOf x ≠ d := fun h => hd (h ▸ hx)
      constructor
      · intro hnone s hs
        rcases List.mem_append.mp hs with h | h
        · exact ih.1 hnone s h
        · simp only [List.mem_singleton] at h
          subst h
          exact hxd
      · intro v hv
        obtain ⟨s, hk, hvs⟩ := ih.2 v hv
        exact ⟨s, KeptFirstMax_extend hk (fun h => absurd h hxd), hvs⟩
    · by_cases hxd : dayOf x = d
      · subst hxd
        cases hlk : alookup (dayOf x) (reconcileBy dayOf keyOf store keyOfStored excl l) with
        | none =>
          rw [reconStep_new hx hlk]
          have hnew : alookup (dayOf x)
              (reconcileBy dayOf keyOf store keyOfStored excl l ++ [(dayOf x, store x)]) =
              some (store x) := by
            rw [alookup_append_single, hlk, if_pos rfl]
          constructor
          · intro h0
            rw [hnew] at h0
            exact absurd h0 (by simp)
          · intro v hv
            rw [hnew] at hv
            refine ⟨x, ⟨l, [], by simp, rfl, ?_, by simp⟩, (Option.some.inj hv).symm⟩
            intro s' hs' hd'
            exact absurd hd' (ih.1 hlk s' hs')
        | some prev =>
          obtain ⟨s0, hk0, hprev⟩ := ih.2 prev hlk
          have hkey : keyOfStored prev = keyOf s0 := by rw [hprev, hcoh]
          by_cases hgt : keyOf x > keyOfStored prev
          · rw [reconStep_gt hx hlk hgt]
            have hupd : alookup (dayOf x)
                (aupdate (dayOf x) (store x)
                  (reconcileBy dayOf keyOf store keyOfStored excl l)) =
                some (store x) := alookup_aupdate_self _ hlk
            constructor
            · intro h0
              rw [hupd] at h0
              exact absurd h0 (by simp)
            · intro v hv
              rw [hupd] at hv
              obtain ⟨l1, l2, hdecomp, hday0, h1, h2⟩ := hk0
              refine ⟨x, ⟨l, [], by simp, rfl, ?_, by simp⟩, (Option.some.inj hv).symm⟩
              intro s' hs' hd'
              rw [hkey] at hgt
              rw [hdecomp] at hs'
              rcases List.mem_append.mp hs' with h | h
              · exact lt_trans (h1 s' h hd') hgt
              · rcases List.mem_cons.mp h with h | h
                · subst h
                  exact hgt
                · exact lt_of_le_of_lt (h2 s' h hd') hgt
          · rw [reconStep_le hx hlk hgt]
            rw [hlk]
            constructor
            · intro h0
              exact absurd h0 (by simp)
            · intro v hv
              have hv' : v = prev := (Option.some.inj hv).symm
              subst hv'
              refine ⟨s0, KeptFirstMax_extend hk0 (fun _ => ?_), hprev⟩
              rw [hkey] at hgt
              omega
      · have hstep : alookup d (reconStep dayOf keyOf store keyOfStored excl
            (reconcileBy dayOf keyOf store keyOfStored excl l) x) =
            alookup d (reconcileBy dayOf keyOf store keyOfStored excl l) := by
          cases hlk : alookup (dayOf x) (reconcileBy dayOf keyOf store keyOfStored excl l) with
          | none =>
            rw [reconStep_new hx hlk, alookup_append_single]
            cases h : alookup d (reconcileBy dayOf keyOf store keyOfStored excl l) with
            | none => simp [hxd]
            | some w => simp
          | some prev =>
            by_cases hgt : keyOf x > keyOfStored prev
            · rw [reconStep_gt hx hlk hgt]
              exact alookup_aupdate_ne _ _ hxd
            · rw [reconStep_le hx hlk hgt]
        rw [hstep]
        constructor
        · intro hnone s hs
          rcases List.mem_append.mp hs with h | h
          · exact ih.1 hnone s h
          · simp only [List.mem_singleton] at h
            subst h
            exact hxd
        · intro v hv
          obtain ⟨s, hk, hvs⟩ := ih.2 v hv
          exact ⟨s, KeptFirstMax_extend hk (fun h => absurd h hxd), hvs⟩

theorem reconcileBy_keys {α V K : Type} [DecidableEq K]
    (dayOf : α → K) (keyOf : α → Int) (store : α → V) (keyOfStored : V → Int)
    (excl : List K) (data : List α) :
    ∀ kv ∈ reconcileBy dayOf keyOf store keyOfStored excl data, kv.1 ∉ excl := by
  induction data using List.reverseRecOn with
  | nil =>
    intro kv hkv
    simp [reconcileBy] at hkv
  | append_singleton l x ih =>
    rw [reconcileBy_append_single]
    intro kv hkv
    by_cases hx : dayOf x ∈ excl
    · rw [reconStep_excl hx] at hkv
      exact ih kv hkv
    · cases hlk : alookup (dayOf x) (reconcileBy dayOf keyOf store keyOfStored excl l) with
      | none =>
        rw [reconStep_new hx hlk] at hkv
        rcases List.mem_append.mp hkv with h | h
        · exact ih kv h
        · simp only [List.mem_singleton] at h
          subst h
          exact hx
      | some prev =>
        by_cases hgt : keyOf x > keyOfStored prev
        · rw [reconStep_gt hx hlk hgt] at hkv
          rcases mem_aupdate hkv with h | h
          · subst h
            exact hx
          · exact ih kv h
        · rw [reconStep_le hx hlk hgt] at hkv
          exact ih kv hkv

theorem mem_sortInsert {α : Type} (lt : α → α → Bool) (x a : α) (l : List α) :
    a ∈ sortInsert lt x l ↔ a = x ∨ a ∈ l := by
  induction l with
  | nil => simp [sortInsert]
  | cons y t ih =>
    by_cases h : lt y x
    · simp only [sortInsert, if_pos h, List.mem_cons, ih]
      tauto
    · simp only [sortInsert, if_neg h, List.mem_cons]

theorem mem_sortBy {α : Type} (lt : α → α → Bool) (a : α) (l : List α) :
    a ∈ sortBy lt l ↔ a ∈ l := by
  induction l with
  | nil => simp [sortBy]
  | cons y t ih =>
    simp only [sortBy, mem_sortInsert, List.mem_cons, ih]

theorem processUHRecord_day (day : Int) (r : UHRawRecord) :
    (processUHRecord day r).day = day := by
  rw [processUHRecord]
  split <;> rfl

theorem processUHRecord_total (day : Int) (r : UHRawRecord) :
    (processUHRecord day r).total_sleep_duration = Int.fdiv (uhTotalSleepSeconds r) 60 := by
  rw [processUHRecord]
  split <;> rfl

theorem int_min_eq_some {xs : List Int} {a : Int} (h1 : a ∈ xs)
    (h2 : ∀ b ∈ xs, a ≤ b) : xs.min? = some a := by
  rw [List.min?_eq_some_iff (fun _ => le_refl _) (fun _ _ => min_choice _ _)
    (fun _ _ _ => le_min_iff)]
  exact ⟨h1, h2⟩

theorem int_max_eq_some {xs : List Int} {a : Int} (h1 : a ∈ xs)
    (h2 : ∀ b ∈ xs, b ≤ a) : xs.max? = some a := by
  rw [List.max?_eq_some_iff (fun _ => le_refl _) (fun _ _ => max_choice _ _)
    (fun _ _ _ => max_le_iff)]
  exact ⟨h1, h2⟩

theorem foldl_if_add {α : Type} (p : α → Bool) (g : α → Int) (l : List α) :
    ∀ c : Int, l.foldl (fun acc seg => if p seg then acc + g seg else acc) c =
      c + ((l.filter p).map g).sum := by
  induction l with
  | nil => intro c; simp
  | cons a t ih =>
    intro c
    by_cases hp : p a
    · simp only [List.foldl_cons, if_pos hp, List.filter_cons, hp, ite_true, List.map_cons,
        List.sum_cons, ih]
      ring
    · simp only [List.foldl_cons, if_neg hp, List.filter_cons, hp, ite_false, ih]
      simp [hp]

theorem uhAwakeSum_eq (graph : List UHSegment) (ss se : Int) :
    uhAwakeSum graph ss se =
      ((graph.filter (fun seg =>
          seg.type == "awake" && decide (ss ≤ seg.start) && decide (seg.start < se))).map
        (fun seg => seg.«end» - seg.start)).sum := by
  rw [uhAwakeSum, foldl_if_add]
  ring

theorem uh_fetch_foldl (resp : Int → UHResponse) (excl : List Int) (days : List Int) :
    ∀ acc : List UHRawRecord,
      days.foldl
        (fun acc d =>
          if d ∈ excl then acc
          else if (resp d).status = 200 then acc ++ [(resp d).payload]
          else acc) acc =
      acc ++ (days.filter (fun d => decide (d ∉ excl) && decide ((resp d).status = 200))).map
        (fun d => (resp d).payload) := by
  induction days with
  | nil => intro acc; simp
  | cons d t ih =>
    intro acc
    by_cases hd : d ∈ excl
    · have hp : (decide (d ∉ excl) && decide ((resp d).status = 200)) = false := by simp [hd]
      simp only [List.foldl_cons, if_pos hd, List.filter_cons, hp]
      simpa using ih acc
    · by_cases hs : (resp d).status = 200
      · have hp : (decide (d ∉ excl) && decide ((resp d).status = 200)) = true := by
          simp [hd, hs]
        simp only [List.foldl_cons, if_neg hd, if_pos hs, List.filter_cons, hp]
        rw [ih]
        simp
      · have hp : (decide (d ∉ excl) && decide ((resp d).status = 200)) = false := by
          simp [hd, hs]
        simp only [List.foldl_cons, if_neg hd, if_neg hs, List.filter_cons, hp]
        simpa using ih acc

theorem processOuraRecord_fields {s : OuraRawSession} {e : OuraProcessed}
    (h : processOuraRecord s = some e) :
    e.day = s.day ∧ e.bedtime_start = time_to_minutes s.bedtime_start ∧
    e.bedtime_end = time_to_minutes s.bedtime_end ∧
    e.sleeptime_start = ouraSleepStart s ∧ e.sleeptime_end = ouraSleepEnd s ∧
    e.deep_sleep_duration = Int.fdiv s.deep_sleep_duration 60 ∧
    e.light_sleep_duration = Int.fdiv s.light_sleep_duration 60 ∧
    e.total_sleep_duration = Int.fdiv s.total_sleep_duration 60 ∧
    e.awake_time_filtered_subtraction =
      max 0 (Int.fdiv s.awake_time 60 -
        ((ouraSleepStart s - time_to_minutes s.bedtime_start) +
         (time_to_minutes s.bedtime_end - ouraSleepEnd s))) ∧
    (∃ rem, s.rem_sleep_duration = some rem ∧ e.rem_sleep_duration = Int.fdiv rem 60) := by
  rw [processOuraRecord] at h
  split at h
  next si ei rem heq1 heq2 heq3 =>
    injection h with h'
    subst h'
    exact ⟨rfl, rfl, rfl, rfl, rfl, rfl, rfl, rfl, rfl, ⟨rem, heq3, rfl⟩⟩
  next =>
    cases h

theorem process_sleep_data_mem_not_excluded (excl : List String) :
    ∀ (data : List OuraRawSession) (out : List OuraProcessed),
      process_sleep_data excl data = some out → ∀ e ∈ out, e.day ∉ excl := by
  intro data
  induction data with
  | nil =>
    intro out h e he
    rw [process_sleep_data] at h
    cases Option.some.inj h
    simp at he
  | cons s t ih =>
    intro out h e he
    rw [process_sleep_data] at h
    by_cases hs : s.day ∈ excl
    · rw [if_pos hs] at h
      exact ih out h e he
    · rw [if_neg hs] at h
      split at h
      · cases h
      next e0 heq0 =>
        split at h
        · cases h
        next rest heqr =>
          cases Option.some.inj h
          rcases List.mem_cons.mp he with h' | h'
          · subst h'
            rw [(processOuraRecord_fields heq0).1]
            exact hs
          · exact ih rest heqr e h'

theorem filter_day_single {l : List VendorDFRow}
    (h : (l.map (fun o => o.day)).Nodup) (dd : Int) :
    l.filter (fun o => o.day == dd) = [] ∨
      ∃ o ∈ l, o.day = dd ∧ l.filter (fun o => o.day == dd) = [o] := by
  induction l with
  | nil => exact Or.inl rfl
  | cons a t ih =>
    simp only [List.map_cons, List.nodup_cons] at h
    obtain ⟨hna, hnt⟩ := h
    by_cases ha : a.day = dd
    · right
      refine ⟨a, List.mem_cons_self _ _, ha, ?_⟩
      have ht : t.filter (fun o => o.day == dd) = [] := by
        rw [List.filter_eq_nil_iff]
        intro o ho hod
        apply hna
        rw [show a.day = o.day from by
          rw [ha]
          exact (beq_iff_eq.mp hod).symm]
        exact List.mem_map_of_mem _ ho
      simp [List.filter_cons, ha, ht]
    · have : (a.day == dd) = false := beq_eq_false_iff_ne.mpr ha
      rcases ih hnt with h' | ⟨o, ho, hod, h'⟩
      · left
        simp [List.filter_cons, this, h']
      · right
        exact ⟨o, List.mem_cons_of_mem _ ho, hod, by simp [List.filter_cons, this, h']⟩

theorem mergeLeftOura_map_fst {oura : List VendorDFRow}
    (h : (oura.map (fun o => o.day)).Nodup) (anec : List AnecRow) :
    (mergeLeftOura anec oura).map (fun row => row.1) = anec := by
  induction anec with
  | nil => rfl
  | cons a t ih =>
    rw [mergeLeftOura] at ih ⊢
    rw [List.flatMap_cons]
    rcases filter_day_single h a.Date with h' | ⟨o, ho, hod, h'⟩
    · rw [h']
      simpa using ih
    · rw [h']
      simpa using ih

theorem mergeLeftUH_map_fst {uh : List VendorDFRow}
    (h : (uh.map (fun u => u.day)).Nodup)
    (rows : List (AnecRow × Option Int × Option VendorCols)) :
    (mergeLeftUH rows uh).map (fun r => r.anec) = rows.map (fun row => row.1) := by
  induction rows with
  | nil => rfl
  | cons row t ih =>
    rw [mergeLeftUH] at ih ⊢
    rw [List.flatMap_cons]
    cases hk : row.2.1 with
    | none =>
      have hnil : uh.filter (fun u : VendorDFRow => none == some u.day) = [] := by
        rw [List.filter_eq_nil_iff]
        intro u hu
        simp
      rw [hnil]
      simpa using ih
    | some dd =>
      have heq : (fun u : VendorDFRow => some dd == some u.day) =
          (fun u : VendorDFRow => u.day == dd) := by
        funext u
        simp [eq_comm]
      rw [heq]
      rcases filter_day_single h dd with h' | ⟨o, ho, hod, h'⟩
      · rw [h']
        simpa using ih
      · rw [h']
        simpa using ih

theorem mem_mergeLeftOura {anec : List AnecRow} {oura : List VendorDFRow}
    {row : AnecRow × Option Int × Option VendorCols} (h : row ∈ mergeLeftOura anec oura) :
    row.1 ∈ anec ∧
      (row.1.Date ∉ oura.map (fun o => o.day) → row.2.1 = none ∧ row.2.2 = none) := by
  rw [mergeLeftOura] at h
  obtain ⟨a, ha, hrow⟩ := List.mem_flatMap.mp h
  cases hf : oura.filter (fun o => o.day == a.Date) with
  | nil =>
    rw [hf] at hrow
    simp only [List.mem_singleton] at hrow
    subst hrow
    exact ⟨ha, fun _ => ⟨rfl, rfl⟩⟩
  | cons o ms =>
    rw [hf] at hrow
    obtain ⟨u, hu, hru⟩ := List.mem_map.mp hrow
    subst hru
    refine ⟨ha, fun hnot => absurd ?_ hnot⟩
    have hu' : u ∈ oura.filter (fun o => o.day == a.Date) := by rw [hf]; exact hu
    have hpred := List.of_mem_filter hu'
    have hmem := List.mem_of_mem_filter hu'
    have hday : u.day = a.Date := beq_iff_eq.mp hpred
    show a.Date ∈ oura.map (fun o => o.day)
    rw [← hday]
    exact List.mem_map_of_mem _ hmem

theorem mem_mergeLeftUH {rows : List (AnecRow × Option Int × Option VendorCols)}
    {uh : List VendorDFRow} {r : MergedRow} (h : r ∈ mergeLeftUH rows uh) :
    ∃ row ∈ rows, r.anec = row.1 ∧ r.day = row.2.1 ∧ r.oura = row.2.2 ∧
      (row.2.1 = none → r.ultrahuman = none) := by
  rw [mergeLeftUH] at h
  obtain ⟨row, hrow, hr⟩ := List.mem_flatMap.mp h
  cases hf : uh.filter (fun u => row.2.1 == some u.day) with
  | nil =>
    rw [hf] at hr
    simp only [List.mem_singleton] at hr
    subst hr
    exact ⟨row, hrow, rfl, rfl, rfl, fun _ => rfl⟩
  | cons o ms =>
    rw [hf] at hr
    obtain ⟨u, hu, hru⟩ := List.mem_map.mp hr
    subst hru
    refine ⟨row, hrow, rfl, rfl, rfl, fun hnone => ?_⟩
    have hu' : u ∈ uh.filter (fun u => row.2.1 == some u.day) := by rw [hf]; exact hu
    have hpred := List.of_mem_filter hu'
    rw [hnone] at hpred
    simp at hpred

theorem mem_fillZero {rows : List MergedRow} {r : MergedRow} (h : r ∈ fillZero rows) :
    ∃ r' ∈ rows, r = { r' with oura := some (r'.oura.getD zeroCols),
                               ultrahuman := some (r'.ultrahuman.getD zeroCols) } := by
  rw [fillZero] at h
  obtain ⟨r', hr', hrr⟩ := List.mem_map.mp h
  exact ⟨r', hr', hrr.symm⟩

theorem processUHRecord_stage_fields (day : Int) (r : UHRawRecord) :
    (processUHRecord day r).deep_sleep_duration =
      Int.fdiv (stageTime r.sleep_stages "deep_sleep") 60 ∧
    (processUHRecord day r).light_sleep_duration =
      Int.fdiv (stageTime r.sleep_stages "light_sleep") 60 ∧
    (processUHRecord day r).rem_sleep_duration =
      Int.fdiv (stageTime r.sleep_stages "rem_sleep") 60 := by
  rw [processUHRecord]
  split <;> exact ⟨rfl, rfl, rfl⟩

theorem fdiv_sixty (a : Int) : Int.fdiv a 60 = a / 60 :=
  Int.fdiv_eq_ediv a (by norm_num)

/-! ## The claims -/

/-- C1 (corrected): for a non-excluded day, the value each vendor's dedup
loop keeps is the first record in input order whose comparison key is
largest -- the computed stage-summary total (deep+light+rem) for the
phase-code vendor, but the bedtime span `bedtime_end - bedtime_start` (not
the stage-summary total) for the segment-list vendor; ties keep the first
record encountered. -/
theorem c1_reconcilers_keep_first_max :
    (∀ (excl : List String) (data : List OuraRawSession) (d : String) (v : OuraRawSession),
       d ∉ excl → alookup d (ouraDedup excl data) = some v →
       OuraKeepsFirstMaxTotal data d v) ∧
    (∀ (excl : List Int) (data : List UHRawRecord) (d : Int) (v : UHRawRecord),
       d ∉ excl → alookup d (uhDedup excl data) = some v →
       UHKeepsFirstMaxSpan data d v) := by
  constructor
  · intro excl data d v hd hv
    exact (reconcileBy_spec _ _ _ _ (fun s => rfl) excl data d hd).2 v hv
  · intro excl data d v hd hv
    exact (reconcileBy_spec _ _ _ _ (fun s => rfl) excl data d hd).2 v hv

/-- C1 witness: concretely, the phase-code dedup keeps the 350-minute
record over the earlier 200-minute one, and the segment-list dedup keeps
the first record with largest bedtime span. -/
theorem c1_witness :
    OuraKeepsFirstMaxTotal [ouraA, ouraB] "2024-07-01" (ouraStore ouraB) ∧
    UHKeepsFirstMaxSpan [uhA, uhB] 0 uhA :=
  ⟨c1_reconcilers_keep_first_max.1 [] [ouraA, ouraB] "2024-07-01" (ouraStore ouraB)
      (by decide) (by decide),
   c1_reconcilers_keep_first_max.2 [] [uhA, uhB] 0 uhA (by decide) (by decide)⟩

/-- C1 counterexample: two same-day Ultrahuman records with stage-summary
totals 200 and 350 minutes, where the 200-minute record has the longer
bedtime span: the normalizer keeps the 200-minute record and discards the
350-minute one, refuting the claim that every vendor reconciles by
stage-summary total. -/
theorem c1_counterexample :
    (process_ultrahuman_sleep_data [uhA, uhB] []).map (fun e => e.total_sleep_duration) = [200] ∧
    Int.fdiv (uhTotalSleepSeconds uhA) 60 = 200 ∧
    Int.fdiv (uhTotalSleepSeconds uhB) 60 = 350 ∧
    uhDay uhA = uhDay uhB := by decide

/-- C2 (corrected): for both vendors, `total_sleep_minutes` is the
truncating division by 60 of the SUM of the non-awake stage seconds, so it
is bounded by deep+light+rem minute fields from below and by that sum plus
2 from above, but need not equal the sum of the per-stage minute fields. -/
theorem c2_total_truncates_after_summation :
    (∀ (s : OuraRawSession) (rem : Int) (e : OuraProcessed),
       s.rem_sleep_duration = some rem →
       processOuraRecord (ouraStore s) = some e →
       e.total_sleep_duration =
         Int.fdiv (s.deep_sleep_duration + s.light_sleep_duration + rem) 60 ∧
       (0 ≤ s.deep_sleep_duration → 0 ≤ s.light_sleep_duration → 0 ≤ rem →
          e.deep_sleep_duration + e.light_sleep_duration + e.rem_sleep_duration ≤
            e.total_sleep_duration ∧
          e.total_sleep_duration ≤
            e.deep_sleep_duration + e.light_sleep_duration + e.rem_sleep_duration + 2)) ∧
    (∀ (day : Int) (r : UHRawRecord) (ds ls ms aw : Int),
       r.sleep_stages =
         [⟨"deep_sleep", ds⟩, ⟨"light_sleep", ls⟩, ⟨"rem_sleep", ms⟩, ⟨"awake", aw⟩] →
       (processUHRecord day r).total_sleep_duration = Int.fdiv (ds + ls + ms) 60 ∧
       (0 ≤ ds → 0 ≤ ls → 0 ≤ ms →
          (processUHRecord day r).deep_sleep_duration +
              (processUHRecord day r).light_sleep_duration +
              (processUHRecord day r).rem_sleep_duration ≤
            (processUHRecord day r).total_sleep_duration ∧
          (processUHRecord day r).total_sleep_duration ≤
            (processUHRecord day r).deep_sleep_duration +
                (processUHRecord day r).light_sleep_duration +
                (processUHRecord day r).rem_sleep_duration + 2)) := by
  constructor
  · intro s rem e hrem h
    obtain ⟨_, _, _, _, _, hdeep, hlight, htot, _, rem', hrem', hremdur⟩ :=
      processOuraRecord_fields h
    have hstore_rem : (ouraStore s).rem_sleep_duration = some rem := hrem
    have hrr : rem' = rem := by
      rw [hstore_rem] at hrem'
      exact (Option.some.inj hrem').symm
    rw [hrr] at hremdur
    have hstot : (ouraStore s).total_sleep_duration =
        s.deep_sleep_duration + s.light_sleep_duration + rem := by
      simp [ouraStore, ouraComputedTotal, hrem]
    constructor
    · rw [htot, hstot]
    · intro h1 h2 h3
      rw [htot, hstot, hdeep, hlight, hremdur]
      have hsd : (ouraStore s).deep_sleep_duration = s.deep_sleep_duration := rfl
      have hsl : (ouraStore s).light_sleep_duration = s.light_sleep_duration := rfl
      rw [hsd, hsl]
      rw [fdiv_sixty, fdiv_sixty, fdiv_sixty, fdiv_sixty]
      omega
  · intro day r ds ls ms aw hstages
    have htot := processUHRecord_total day r
    obtain ⟨hdeep, hlight, hrem⟩ := processUHRecord_stage_fields day r
    have hsum : uhTotalSleepSeconds r = ds + ls + ms := by
      rw [uhTotalSleepSeconds, hstages]
      show ds + (ls + (ms + 0)) = ds + ls + ms
      ring
    have hd : stageTime r.sleep_stages "deep_sleep" = ds := by
      rw [stageTime, hstages]
      rfl
    have hl : stageTime r.sleep_stages "light_sleep" = ls := by
      rw [stageTime, hstages]
      rfl
    have hm : stageTime r.sleep_stages "rem_sleep" = ms := by
      rw [stageTime, hstages]
      rfl
    constructor
    · rw [htot, hsum]
    · intro h1 h2 h3
      rw [htot, hsum, hdeep, hlight, hrem, hd, hl, hm]
      rw [fdiv_sixty, fdiv_sixty, fdiv_sixty, fdiv_sixty]
      omega

/-- C2 witness: the amended totals evaluated on concrete records of both
vendors. -/
theorem c2_witness :
    ouraProcC10.total_sleep_duration = 210 ∧
    (processUHRecord 0 uhRecC2).total_sleep_duration = 4 :=
  ⟨(c2_total_truncates_after_summation.1 ouraRecC10 1800 ouraProcC10
      (by decide) (by decide)).1.trans (by decide),
   (c2_total_truncates_after_summation.2 0 uhRecC2 90 90 90 0 (by decide)).1.trans (by decide)⟩

/-- C2 counterexample: an Ultrahuman record with 90-second deep, light and
rem stages yields total_sleep_minutes 4 while deep+light+rem minute fields
sum to 3, refuting `total = deep + light + rem` over the minute fields. -/
theorem c2_counterexample :
    (process_ultrahuman_sleep_data [uhRecC2] []).map
      (fun e => (e.total_sleep_duration,
        e.deep_sleep_duration + e.light_sleep_duration + e.rem_sleep_duration)) = [(4, 3)] ∧
    (4 : Int) ≠ 3 := by decide

/-- C3 (corrected): `time_to_minutes` maps clock hour h and minute m to
h*60+m when h < 12, and to h*60+m - 1440 when h is noon or later -- the
subtraction lands on afternoon/evening hours, not on the before-noon hours
the claim states. -/
theorem c3_offset_rule :
    ∀ (h m : Nat), time_to_minutes ⟨h, m⟩ =
      if h < 12 then (h : Int) * 60 + (m : Int)
      else (h : Int) * 60 + (m : Int) - 1440 := by
  intro h m
  rw [time_to_minutes]
  by_cases hh : h < 12
  · rw [if_pos hh, if_pos hh]
    ring
  · rw [if_neg hh, if_neg hh]
    ring

/-- C3 counterexample: at 02:00 the code yields 120, not
2*60+0 - 1440 = -1320 as the claim asserts for hours before noon. -/
theorem c3_counterexample :
    time_to_minutes ⟨2, 0⟩ = 120 ∧ time_to_minutes ⟨2, 0⟩ ≠ 2 * 60 + 0 - 1440 := by decide

/-- C4 (code bug): on a record whose phase sequence is empty, the
phase-code normalizer raises (line 88 of oura_api.py evaluates
`None + 1`) instead of producing the fallback session the claim
describes; the embedding returns `none`. -/
theorem c4_crash_on_empty_phases : processOuraRecord ouraRecEmptyPhases = none := by rfl

/-- C5 (code bug): on a record whose phase sequence is all awake codes,
the phase-code normalizer raises (line 88 of oura_api.py evaluates
`None + 1`) instead of producing the zero-length sleep window the claim
describes; the embedding returns `none`. -/
theorem c5_crash_on_all_awake : processOuraRecord ouraRecAllAwake = none := by rfl

/-- C6 (confirmed): in the segment-list normalizer, when ss is the least
start and se the greatest end among non-awake sleep-graph segments, the
awake minutes equal the truncating division by 60 of the summed durations
of awake-tagged segments whose start lies in [ss, se), and the trimmed
sleep window is [ss, se] converted to minute offsets. -/
theorem c6_awake_within_trimmed_window :
    ∀ (day : Int) (r : UHRawRecord) (ss se : Int),
      ss ∈ (nonAwakeSegs r).map (fun seg => seg.start) →
      (∀ t ∈ (nonAwakeSegs r).map (fun seg => seg.start), ss ≤ t) →
      se ∈ (nonAwakeSegs r).map (fun seg => seg.«end») →
      (∀ t ∈ (nonAwakeSegs r).map (fun seg => seg.«end»), t ≤ se) →
      (processUHRecord day r).sleeptime_start = uh_time_to_minutes ss (uhRef r) ∧
      (processUHRecord day r).sleeptime_end = uh_time_to_minutes se (uhRef r) ∧
      (processUHRecord day r).awake_time_filtered =
        Int.fdiv (((r.sleep_graph.filter (fun seg =>
            seg.type == "awake" && decide (ss ≤ seg.start) && decide (seg.start < se))).map
          (fun seg => seg.«end» - seg.start)).sum) 60 := by
  intro day r ss se h1 h2 h3 h4
  have hmin : ((nonAwakeSegs r).map (fun seg => seg.start)).min? = some ss :=
    int_min_eq_some h1 h2
  have hmax : ((nonAwakeSegs r).map (fun seg => seg.«end»)).max? = some se :=
    int_max_eq_some h3 h4
  rw [processUHRecord, hmin, hmax]
  refine ⟨rfl, rfl, ?_⟩
  show Int.fdiv (uhAwakeSum r.sleep_graph ss se) 60 = _
  rw [uhAwakeSum_eq]

/-- C6 witness: on the spec's example graph
[(asleep,0,300),(awake,300,360),(asleep,360,600)] the window is 0..600
seconds (0..10 minutes) and the awake time inside it is 1 minute. -/
theorem c6_witness :
    (processUHRecord 0 uhRecC6).sleeptime_start = 0 ∧
    (processUHRecord 0 uhRecC6).sleeptime_end = 10 ∧
    (processUHRecord 0 uhRecC6).awake_time_filtered = 1 := by
  have h := c6_awake_within_trimmed_window 0 uhRecC6 0 600
    (by decide) (by decide) (by decide) (by decide)
  exact ⟨h.1.trans (by decide), h.2.1.trans (by decide), h.2.2.trans (by decide)⟩

/-- C7 (confirmed): with each vendor table holding at most one row per day
(which reconciliation guarantees), the merger emits exactly one row per
anecdotal row, in order (hence no row for days absent from the anecdotal
series), and a day with no vendor match gets all-zero vendor columns. -/
theorem c7_merger_left_join_zero_fill :
    ∀ (anec : List AnecRow) (oura uh : List VendorDFRow),
      (oura.map (fun o => o.day)).Nodup →
      (uh.map (fun u => u.day)).Nodup →
      (create_dataframes oura uh anec).map (fun r => r.anec.Date) =
          anec.map (fun a => a.Date) ∧
      (∀ r ∈ create_dataframes oura uh anec,
         r.anec.Date ∉ oura.map (fun o => o.day) →
         r.anec.Date ∉ uh.map (fun u => u.day) →
         r.oura = some zeroCols ∧ r.ultrahuman = some zeroCols) := by
  intro anec oura uh h1 h2
  constructor
  · have hanec : (create_dataframes oura uh anec).map (fun r => r.anec) = anec := by
      rw [create_dataframes]
      have hfz : (fillZero (mergeLeftUH (mergeLeftOura anec oura) uh)).map (fun r => r.anec) =
          (mergeLeftUH (mergeLeftOura anec oura) uh).map (fun r => r.anec) := by
        rw [fillZero, List.map_map]
        rfl
      rw [hfz, mergeLeftUH_map_fst h2, mergeLeftOura_map_fst h1]
    calc (create_dataframes oura uh anec).map (fun r => r.anec.Date)
        = ((create_dataframes oura uh anec).map (fun r => r.anec)).map (fun a => a.Date) := by
          rw [List.map_map]
          rfl
      _ = anec.map (fun a => a.Date) := by rw [hanec]
  · intro r hr ho hu
    rw [create_dataframes] at hr
    obtain ⟨r', hr', hfill⟩ := mem_fillZero hr
    obtain ⟨row, hrow, hanec, hday, houra, huh⟩ := mem_mergeLeftUH hr'
    obtain ⟨hin, hnone⟩ := mem_mergeLeftOura hrow
    have hra : r.anec = row.1 := by
      rw [hfill]
      exact hanec
    have hdate : row.1.Date ∉ oura.map (fun o => o.day) := by
      rw [← hra]
      exact ho
    obtain ⟨hd1, hd2⟩ := hnone hdate
    constructor
    · rw [hfill]
      show some (r'.oura.getD zeroCols) = some zeroCols
      rw [houra, hd2]
      rfl
    · rw [hfill]
      show some (r'.ultrahuman.getD zeroCols) = some zeroCols
      rw [huh hd1]
      rfl

/-- C7 witness: two anecdotal days 10 and 11 with vendor data only for
day 10 produce exactly the rows [10, 11], and day 11's row carries
zero-filled vendor columns. -/
theorem c7_witness :
    (create_dataframes ouraDF7 uhDF7 anecC7).map (fun r => r.anec.Date) = [10, 11] ∧
    rowC7.oura = some zeroCols ∧ rowC7.ultrahuman = some zeroCols := by
  have h := c7_merger_left_join_zero_fill anecC7 ouraDF7 uhDF7 (by decide) (by decide)
  exact ⟨h.1.trans (by decide), h.2 rowC7 (by decide) (by decide) (by decide)⟩

/-- C8 (confirmed): the phase-code vendor's fetch raises exactly when the
response status is not 200, while the segment-list vendor's fetch never
raises: it returns precisely the payloads of the non-excluded days whose
response status is 200, skipping failed days and continuing. -/
theorem c8_fetch_error_asymmetry :
    (∀ (resp : OuraResponse) (excl : List String),
       (∃ msg, get_oura_sleep_data resp excl = Except.error msg) ↔ resp.status ≠ 200) ∧
    (∀ (days : List Int) (resp : Int → UHResponse) (excl : List Int),
       get_ultrahuman_sleep_data days resp excl =
         (days.filter (fun d => decide (d ∉ excl) && decide ((resp d).status = 200))).map
           (fun d => (resp d).payload)) := by
  constructor
  · intro resp excl
    constructor
    · rintro ⟨msg, hmsg⟩ h200
      rw [get_oura_sleep_data, if_pos h200] at hmsg
      cases hmsg
    · intro hne
      refine ⟨"Failed to fetch data", ?_⟩
      rw [get_oura_sleep_data, if_neg hne]
  · intro days resp excl
    rw [get_ultrahuman_sleep_data, uh_fetch_foldl]
    rw [List.nil_append]

/-- C9 (confirmed): a day in the exclusion list never appears in either
normalizer's output, whatever raw records the fetch returned. -/
theorem c9_excluded_day_never_in_output :
    (∀ (d : String) (excl : List String) (data : List OuraRawSession),
       d ∈ excl → OuraDayExcluded data excl d) ∧
    (∀ (d : Int) (excl : List Int) (data : List UHRawRecord),
       d ∈ excl → UHDayExcluded data excl d) := by
  constructor
  · intro d excl data hd out hout e he hday
    exact process_sleep_data_mem_not_excluded excl data out hout e he (hday ▸ hd)
  · intro d excl data hd e he hday
    rw [process_ultrahuman_sleep_data, mem_sortBy] at he
    obtain ⟨kv, hkv, hekv⟩ := List.mem_map.mp he
    have hk := reconcileBy_keys uhDay uhSpan (fun r => r) uhSpan excl data kv hkv
    rw [← hekv, processUHRecord_day] at hday
    exact hk (hday ▸ hd)

/-- C9 witness: concrete records for an excluded day are dropped by both
normalizers. -/
theorem c9_witness :
    OuraDayExcluded [ouraRecExcluded] ["2024-06-21"] "2024-06-21" ∧
    UHDayExcluded [uhRecExcluded] [19900] 19900 :=
  ⟨c9_excluded_day_never_in_output.1 "2024-06-21" ["2024-06-21"] [ouraRecExcluded] (by decide),
   c9_excluded_day_never_in_output.2 19900 [19900] [uhRecExcluded] (by decide)⟩

/-- C10 (confirmed): whenever the phase-code normalizer returns a session,
its subtraction-based awake measure equals
max(0, awake_time // 60 - ((sleep_start - bedtime_start) +
(bedtime_end - sleep_end))) and is never negative. -/
theorem c10_subtraction_awake_clamped :
    ∀ (s : OuraRawSession) (e : OuraProcessed), processOuraRecord s = some e →
      e.awake_time_filtered_subtraction =
        max 0 (Int.fdiv s.awake_time 60 -
          ((e.sleeptime_start - e.bedtime_start) + (e.bedtime_end - e.sleeptime_end))) ∧
      0 ≤ e.awake_time_filtered_subtraction := by
  intro s e h
  obtain ⟨_, hbs, hbe, hss, hse, _, _, _, hsub, _⟩ := processOuraRecord_fields h
  constructor
  · rw [hsub, hbs, hbe, hss, hse]
  · rw [hsub]
    exact le_max_left _ _

/-- C10 witness: on a record whose trimmed edges exceed the reported awake
seconds, the measure clamps to 0. -/
theorem c10_witness :
    ouraProcC10.awake_time_filtered_subtraction =
      max 0 (Int.fdiv ouraRecC10.awake_time 60 -
        ((ouraProcC10.sleeptime_start - ouraProcC10.bedtime_start) +
         (ouraProcC10.bedtime_end - ouraProcC10.sleeptime_end))) ∧
    0 ≤ ouraProcC10.awake_time_filtered_subtraction :=
  c10_subtraction_awake_clamped ouraRecC10 ouraProcC10 (by decide)

/-- Supporting: every record whose phases are all the awake code makes the
phase-code normalizer raise. -/
theorem oura_all_awake_raises (s : OuraRawSession)
    (h : ∀ p ∈ s.sleep_phase_5_min, p = 4) :
    processOuraRecord s = none := by
  have h1 : ouraStartIdx s = none := by
    rw [ouraStartIdx, List.findIdx?_eq_none_iff]
    intro x hx
    simp [h x hx]
  rw [processOuraRecord, h1]

/-- Supporting: the segment-list normalizer does implement the fallback:
with no non-awake segments, the sleep window collapses to the bedtime
window and the windowed awake time is 0. -/
theorem uh_no_nonawake_falls_back (day : Int) (r : UHRawRecord)
    (h : nonAwakeSegs r = []) :
    (processUHRecord day r).sleeptime_start = (processUHRecord day r).bedtime_start ∧
    (processUHRecord day r).sleeptime_end = (processUHRecord day r).bedtime_end ∧
    (processUHRecord day r).awake_time_filtered = 0 := by
  rw [processUHRecord, h]
  exact ⟨rfl, rfl, rfl⟩

theorem processOuraRecord_indices {s : OuraRawSession} {e : OuraProcessed}
    (h : processOuraRecord s = some e) :
    ∃ si ei, ouraStartIdx s = some si ∧ ouraEndIdx s = some ei := by
  rw [processOuraRecord] at h
  split at h
  next si ei rem h1 h2 h3 => exact ⟨si, ei, h1, h2⟩
  next => cases h

/-- Supporting (C4's ordering half): when the phase-code normalizer
returns a session and the phase string covers the bedtime window exactly,
bedtime_start <= sleep_start <= sleep_end <= bedtime_end. -/
theorem oura_ordering_invariant (s : OuraRawSession) (e : OuraProcessed)
    (h : processOuraRecord s = some e)
    (hcov : time_to_minutes s.bedtime_end =
      time_to_minutes s.bedtime_start + 5 * (s.sleep_phase_5_min.length : Int)) :
    e.bedtime_start ≤ e.sleeptime_start ∧ e.sleeptime_start ≤ e.sleeptime_end ∧
    e.sleeptime_end ≤ e.bedtime_end := by
  obtain ⟨si, ei, hsi, hei⟩ := processOuraRecord_indices h
  obtain ⟨_, hbs, hbe, hss, hse, _⟩ := processOuraRecord_fields h
  obtain ⟨hlt, hp, hminim⟩ := List.findIdx?_eq_some_iff_getElem.mp hsi
  obtain ⟨i, hi, hiei⟩ := Option.map_eq_some'.mp hei
  obtain ⟨hlt', hp', _⟩ := List.findIdx?_eq_some_iff_getElem.mp hi
  rw [List.length_reverse] at hlt'
  have heilt : ei < s.sleep_phase_5_min.length := by omega
  have hpei : (s.sleep_phase_5_min.get ⟨ei, heilt⟩ != 4) = true := by
    have hrev := @List.getElem_reverse Nat s.sleep_phase_5_min i
      (by rw [List.length_reverse]; exact hlt')
    rw [hrev] at hp'
    have hidx : s.sleep_phase_5_min.length - 1 - i = ei := by omega
    simp_all
  have hsiei : si ≤ ei := by
    by_contra hc
    push_neg at hc
    exact absurd hpei (by simpa using hminim ei hc)
  have hssv : ouraSleepStart s = time_to_minutes s.bedtime_start + (si : Int) * 5 := by
    rw [ouraSleepStart, hsi]
  have hsev : ouraSleepEnd s = time_to_minutes s.bedtime_start + ((ei : Int) + 1) * 5 := by
    rw [ouraSleepEnd, hei]
  rw [hbs, hbe, hss, hse, hssv, hsev, hcov]
  refine ⟨by omega, by omega, by omega⟩

theorem uh_t2m_eq (t ref : Int) : uh_time_to_minutes t ref = (t - ref) / 60 := by
  rw [uh_time_to_minutes, Int.fdiv_eq_ediv _ (by norm_num), Int.fdiv_eq_ediv _ (by norm_num)]
  have hm : Int.emod (t - ref) 86400 = (t - ref) % 86400 := rfl
  rw [hm]
  omega

theorem uh_t2m_mono {x y : Int} (ref : Int) (h : x ≤ y) :
    uh_time_to_minutes x ref ≤ uh_time_to_minutes y ref := by
  rw [uh_t2m_eq, uh_t2m_eq]
  exact Int.ediv_le_ediv (by norm_num) (by omega)

/-- Supporting (C4's ordering half): when every sleep-graph segment lies
inside the bedtime window and a non-awake segment exists, the segment-list
session satisfies bedtime_start <= sleep_start <= sleep_end <=
bedtime_end. -/
theorem uh_ordering_invariant (day : Int) (r : UHRawRecord)
    (hbound : ∀ seg ∈ r.sleep_graph,
      r.bedtime_start ≤ seg.start ∧ seg.start ≤ seg.«end» ∧ seg.«end» ≤ r.bedtime_end)
    (ss se : Int)
    (hmin : ((nonAwakeSegs r).map (fun seg => seg.start)).min? = some ss)
    (hmax : ((nonAwakeSegs r).map (fun seg => seg.«end»)).max? = some se) :
    (processUHRecord day r).bedtime_start ≤ (processUHRecord day r).sleeptime_start ∧
    (processUHRecord day r).sleeptime_start ≤ (processUHRecord day r).sleeptime_end ∧
    (processUHRecord day r).sleeptime_end ≤ (processUHRecord day r).bedtime_end := by
  have hminp := (List.min?_eq_some_iff (fun _ => le_refl _) (fun _ _ => min_choice _ _)
    (fun _ _ _ => le_min_iff)).mp hmin
  have hmaxp := (List.max?_eq_some_iff (fun _ => le_refl _) (fun _ _ => max_choice _ _)
    (fun _ _ _ => max_le_iff)).mp hmax
  obtain ⟨hssmem, hssle⟩ := hminp
  obtain ⟨hsemem, hsele⟩ := hmaxp
  obtain ⟨seg1, hseg1, hseg1s⟩ := List.mem_map.mp hssmem
  obtain ⟨seg2, hseg2, hseg2e⟩ := List.mem_map.mp hsemem
  have hseg1g : seg1 ∈ r.sleep_graph := List.mem_of_mem_filter hseg1
  have hseg2g : seg2 ∈ r.sleep_graph := List.mem_of_mem_filter hseg2
  have h1 : r.bedtime_start ≤ ss := by
    rw [← hseg1s]
    exact (hbound seg1 hseg1g).1
  have h2 : ss ≤ se := by
    have hs2 : ss ≤ seg2.start := hssle _ (List.mem_map_of_mem _ hseg2)
    have := (hbound seg2 hseg2g).2.1
    omega
  have h3 : se ≤ r.bedtime_end := by
    rw [← hseg2e]
    exact (hbound seg2 hseg2g).2.2
  rw [processUHRecord, hmin, hmax]
  exact ⟨uh_t2m_mono _ h1, uh_t2m_mono _ h2, uh_t2m_mono _ h3⟩
